import Mathlib

/-!
Verification of the MEDEA beam emulator (`medea/BeamEmulator.py`).

The Python source is shallowly embedded over exact rationals: numpy 2-D
arrays become `List (List ℚ)` (row major), fallible Python operations
return `Except PyErr`, and the several exception classes Python can raise
are distinguished by the constructors of `PyErr`.  The spec's error
taxonomy names two further error classes (`ConfigurationError`,
`MissingDependency`); they are included as constructors so that theorems
can state whether the code ever produces them.
-/

namespace Medea

abbrev Vec := List ℚ
abbrev Mat := List Vec

/-- The kinds of runtime failure the embedded code can signal, mirroring
Python exception classes, together with the two error classes named by the
specification's taxonomy (which the code may or may not ever raise). -/
inductive PyErr where
  | attributeErr (name : String)
  | nameErr (name : String)
  | unboundLocalErr (name : String)
  | valueErr (msg : String)
  | indexErr (msg : String)
  | keyErr (name : String)
  | configurationErr (msg : String)
  | missingDependencyErr (msg : String)
  deriving DecidableEq, Repr

instance {α β : Type} [DecidableEq α] [DecidableEq β] : DecidableEq (Except α β) := fun a b =>
  match a, b with
  | .ok x, .ok y =>
    if h : x = y then .isTrue (by rw [h]) else .isFalse (fun hc => by cases hc; exact h rfl)
  | .error x, .error y =>
    if h : x = y then .isTrue (by rw [h]) else .isFalse (fun hc => by cases hc; exact h rfl)
  | .ok _, .error _ => .isFalse (fun hc => by cases hc)
  | .error _, .ok _ => .isFalse (fun hc => by cases hc)

/-- Dot product of two rational vectors (only applied under a length
check, matching numpy's shape checking). -/
def dot (u v : Vec) : ℚ := (List.zipWith (· * ·) u v).sum

/-- Number of columns of a row-major matrix (length of its first row). -/
def width (m : Mat) : ℕ := (m.headD []).length

/-- numpy transpose `a.T` of a rectangular row-major matrix. -/
def matTranspose (m : Mat) : Mat :=
  (List.range (width m)).map (fun j => m.map (fun r => r.getD j 0))

/-- Python slicing `a[:, :K]`: keep the first `K` columns when a
truncation order is given, otherwise (`a[:, :None]`) keep everything. -/
def truncCols (m : Mat) (K : Option ℕ) : Mat :=
  match K with
  | none => m
  | some k => m.map (fun r => r.take k)

/-- Linear combination `Σ rᵢ • Bᵢ` of the rows of `B` with coefficients
`r`, producing a vector of length `m`. -/
def linCombW (m : ℕ) (r : Vec) (B : Mat) : Vec :=
  (r.zip B).foldr (fun av acc => List.zipWith (· + ·) (av.2.map (av.1 * ·)) acc)
    (List.replicate m 0)

/-- Total matrix product (used to state and check exact linear algebra;
shape checking is done by `matMul`). -/
def matProd (A B : Mat) : Mat := A.map (fun r => linCombW (width B) r B)

/-- numpy `matmul` of a 2-D array with a 1-D array: shape `(a, b) × (b,)`,
raising `ValueError` on a shape mismatch. -/
def matVec (M : Mat) (v : Vec) : Except PyErr Vec :=
  if M.all (fun r => r.length = v.length) then .ok (M.map (fun r => dot r v))
  else .error (.valueErr "matmul: dimension mismatch")

/-- numpy `matmul` of two 2-D arrays: shape `(a, b) × (b, c)`, raising
`ValueError` on a shape mismatch. -/
def matMul (A B : Mat) : Except PyErr Mat :=
  if A.all (fun r => r.length = B.length) then .ok (matProd A B)
  else .error (.valueErr "matmul: dimension mismatch")

/-- healpy `nside2npix`: the full sky has `12·nside²` pixels. -/
def npix (nside : ℕ) : ℕ := 12 * nside ^ 2

/-- numpy single-index assignment `arr[i] = v` with Python index
semantics: a negative index `i` addresses position `len + i`; an index
outside `[-len, len)` raises `IndexError`. -/
def npSetIdx (arr : Vec) (i : ℤ) (v : ℚ) : Except PyErr Vec :=
  if 0 ≤ i ∧ i < (arr.length : ℤ) then .ok (arr.set i.toNat v)
  else if -(arr.length : ℤ) ≤ i ∧ i < 0 then .ok (arr.set (i + arr.length).toNat v)
  else .error (.indexErr "index out of bounds")

/-- Assign a list of (index, value) pairs sequentially (numpy fancy
assignment writes in order, so a repeated index keeps the last value). -/
def npAssignPairs : Vec → List (ℤ × ℚ) → Except PyErr Vec
  | arr, [] => .ok arr
  | arr, iv :: rest =>
    match npSetIdx arr iv.1 iv.2 with
    | .ok arr2 => npAssignPairs arr2 rest
    | .error e => .error e

/-- Total companion of `npAssignPairs`, used to name the result value
when every index is in range. -/
def npAssignPairsPure : Vec → List (ℤ × ℚ) → Vec
  | arr, [] => arr
  | arr, iv :: rest =>
    npAssignPairsPure (arr.set (if iv.1 < 0 then (iv.1 + arr.length).toNat else iv.1.toNat) iv.2) rest

/-- Effectful map over a list for `Except`: stop at the first error, as a
Python `for` loop raising inside the body does. -/
def exceptMap {α β : Type} (f : α → Except PyErr β) : List α → Except PyErr (List β)
  | [] => .ok []
  | a :: l =>
    match f a with
    | .error e => .error e
    | .ok v =>
      match exceptMap f l with
      | .error e => .error e
      | .ok vs => .ok (v :: vs)

/-- numpy fancy-index assignment `arr[idxs] = vals`: the value list must
match the index list in length, or be a single value which broadcasts;
any other length mismatch raises `ValueError`. -/
def npIndexAssign (arr : Vec) (idxs : List ℤ) (vals : Vec) : Except PyErr Vec :=
  if idxs.length = vals.length then npAssignPairs arr (idxs.zip vals)
  else if vals.length = 1 then npAssignPairs arr (idxs.map (fun i => (i, vals.headD 0)))
  else .error (.valueErr "shape mismatch in index assignment")

/-! ### Gaussian-process configuration (lines 104–141 of the source)

The numerical behaviour of scikit-learn's fitted regressors is outside the
program; what the claims are about is the configuration control flow: which
kernel/regressor objects the enumerated names select, and how unknown names
or a missing scikit-learn installation fail.  `gprFit` follows the source's
`if`/`elif` chains statement by statement: a chain with no `else` leaves the
local variable (`kernel`, `regr`) unbound, so the next use raises
`UnboundLocalError`; when scikit-learn is not importable the kernel class
named in the matching branch (or `GaussianProcessRegressor` itself) is an
undefined name and raises `NameError`.
-/

/-- The `gpr_kwargs` dictionary with the three keys the source reads. -/
structure GprKwargs where
  kernel : String
  normalize_y : Bool
  regressor : String
  deriving DecidableEq, Repr

/-- A scikit-learn kernel as configured by the source: a kernel family
scaled by a constant factor, with the constructor arguments used at
lines 108–114. -/
structure KernelSpec where
  family : String
  constantFactor : ℚ
  length_scale : ℚ
  nu : Option ℚ
  alpha : Option ℚ
  deriving DecidableEq, Repr

/-- The kernel selected for each enumerated name (lines 107–114); `none`
when the name matches no branch of the `if`/`elif` chain. -/
def selectKernel (name : String) : Option KernelSpec :=
  if name = "RBF" then some ⟨"RBF", 1, 1, none, none⟩
  else if name = "Matern_2_5" then some ⟨"Matern", 1, 1, some (5/2), none⟩
  else if name = "Matern_1_5" then some ⟨"Matern", 1, 1, some (3/2), none⟩
  else if name = "RQ" then some ⟨"RationalQuadratic", 1, 1, none, some (3/2)⟩
  else none

/-- The two regressor wrappers the source can build (lines 119–126). -/
inductive RegressorKind where
  | multiOutput
  | regressorChain
  deriving DecidableEq, Repr

/-- The regressor selected for each enumerated name; `none` when the name
matches no branch. -/
def selectRegressor (name : String) : Option RegressorKind :=
  if name = "MultiOutput" then some .multiOutput
  else if name = "RegressorChain" then some .regressorChain
  else none

/-- The configured Gaussian-process model: kernel, regressor wrapper, the
fixed optimizer restart count and the normalize flag passed through at
lines 116–117. -/
structure GprModel where
  kernel : KernelSpec
  regressor : RegressorKind
  n_restarts_optimizer : ℕ
  normalize_y : Bool
  deriving DecidableEq, Repr

/-- Control flow of the Gaussian-process branch of
`hyper_parameter_interpolater` (lines 104–141), parameterised by whether
the module-level `sklearn` import succeeded. -/
def gprFit (sklearnAvailable : Bool) (kw : GprKwargs) : Except PyErr GprModel :=
  match selectKernel kw.kernel with
  | some ks =>
    if sklearnAvailable then
      match selectRegressor kw.regressor with
      | some rg => .ok ⟨ks, rg, 20, kw.normalize_y⟩
      | none => .error (.unboundLocalErr "regr")
    else .error (.nameErr ks.family)
  | none =>
    if sklearnAvailable then .error (.unboundLocalErr "kernel")
    else .error (.nameErr "GaussianProcessRegressor")

/-! ### Spline interpolation (lines 143–150 of the source)

The spline branch calls `scipy.interpolate.make_interp_spline(x, y, k)`,
which builds the B-spline of degree `k` that interpolates `y` at the sites
`x`: it forms the default (not-a-knot style) knot vector, the collocation
matrix of B-spline basis values at the sites, and solves the linear system
for the spline coefficients, raising when the system is singular.  That
algorithm is reproduced here over ℚ: Cox–de Boor basis evaluation (with
the usual convention that the rightmost interval is closed, and that a
term with a zero-width knot span is dropped, which `ℚ`'s `x / 0 = 0`
gives for free), the odd-degree default knot vector, and an exact
Gaussian-elimination solve whose result is checked against the system so
that `make_interp_spline` returns `none` exactly when no exact solution is
produced.  The vector-valued data `y` (one slice of shape `[F, L]` per
site) is handled flattened to one row of length `F·L` per site, which is
how the source reshapes it for scoring and for the GPR branch; the spline
acts componentwise either way.

The source also computes an `r2_score` diagnostic for the spline fit
(lines 151–154), guarded by a `try` whose handler is missing from the
file; the diagnostic influences nothing downstream and is omitted.
-/

/-- Knot access with numpy-style clamping default (never exercised for
indices used by a well-formed basis). -/
def knotD (t : List ℚ) (j : ℕ) : ℚ := t.getD j 0

/-- Cox–de Boor B-spline basis function `B_{j,k}` over the knot vector
`t`.  The degree-0 case is the indicator of `[t_j, t_{j+1})`, closed on
the right when `t_{j+1}` is the last knot (so that the spline is defined
at the right end of the data range, as scipy's evaluation is). -/
def bsplineBasis (t : List ℚ) : ℕ → ℕ → ℚ → ℚ
  | 0, j, x =>
    if knotD t j ≤ x ∧
        (x < knotD t (j+1) ∨
          (knotD t j < knotD t (j+1) ∧ knotD t (j+1) = t.getLastD 0 ∧ x = knotD t (j+1)))
    then 1 else 0
  | k+1, j, x =>
    (x - knotD t j) / (knotD t (j+k+1) - knotD t j) * bsplineBasis t k j x
      + (knotD t (j+k+2) - x) / (knotD t (j+k+2) - knotD t (j+1)) * bsplineBasis t k (j+1) x

/-- The row of all basis-function values at one site: the spline space
over `t` of degree `k` has `len t - k - 1` basis functions. -/
def basisWeights (t : List ℚ) (k : ℕ) (x : ℚ) : Vec :=
  (List.range (t.length - (k + 1))).map (fun j => bsplineBasis t k j x)

/-- scipy's default interpolation knot vector for odd degree `k` (the
not-a-knot style choice: `k+1` copies of each boundary site and the
interior sites with the first and last `(k+1)/2` dropped); for `k = 1`
this is the sites with doubled endpoints, for `k = 3` the sites with
`x₁, x_{n-2}` dropped and quadrupled endpoints. -/
def interpKnots (x : List ℚ) (k : ℕ) : List ℚ :=
  let h := (k + 1) / 2
  List.replicate (k + 1) (x.headD 0)
    ++ ((x.drop h).take (x.length - 2 * h))
    ++ List.replicate (k + 1) (x.getLastD 0)

/-- First row with a nonzero leading entry, and the remaining rows. -/
def pickPivot : Mat → Option (Vec × Mat)
  | [] => none
  | r :: rest =>
    if r.headD 0 ≠ 0 then some (r, rest)
    else
      match pickPivot rest with
      | some pr => some (pr.1, r :: pr.2)
      | none => none

/-- Eliminate the leading column of `r` using the pivot row, dropping the
leading entry. -/
def reduceRow (pivot r : Vec) : Vec :=
  (List.zipWith (fun a b => a - r.headD 0 / pivot.headD 0 * b) r pivot).tail

/-- Forward elimination producing the list of pivot rows (each one column
shorter than the previous), or `none` when no pivot is available. -/
def forwardElim : Mat → ℕ → Option Mat
  | _, 0 => some []
  | rows, s+1 =>
    match pickPivot rows with
    | none => none
    | some pr =>
      match forwardElim (pr.2.map (reduceRow pr.1)) s with
      | none => none
      | some ps => some (pr.1 :: ps)

/-- Back substitution for a multi-right-hand-side system: each pivot row
is `[a, c₁, …, c_r, y₁, …, y_m]` and the unknown row it determines is
`(y - Σ cᵢ • xᵢ) / a`. -/
def backSubst (m : ℕ) : Mat → Mat
  | [] => []
  | p :: ps =>
    let below := backSubst m ps
    let rest := p.tail
    let ys := rest.drop (rest.length - m)
    let corr := linCombW m (rest.take (rest.length - m)) below
    (List.zipWith (fun y c => (y - c) / p.headD 0) ys corr) :: below

/-- Exact linear solve of `A · X = Y` by Gaussian elimination. -/
def gaussSolve (A Y : Mat) : Option Mat :=
  (forwardElim (List.zipWith (· ++ ·) A Y) A.length).map (backSubst (width Y))

/-- A fitted B-spline: knot vector, coefficient rows (one row of length
`F·L` per basis function) and degree, as `make_interp_spline` returns. -/
structure BSplineModel where
  t : List ℚ
  c : Mat
  k : ℕ
  deriving DecidableEq, Repr

/-- Model of `scipy.interpolate.make_interp_spline(x, y, k)` for
vector-valued data `yflat` (one flattened row per site): build the default
knots and the collocation matrix, solve for the coefficients and check the
solution exactly; `none` models the `LinAlgError` scipy raises when the
collocation system cannot be solved. -/
def make_interp_spline (x : List ℚ) (yflat : Mat) (k : ℕ) : Option BSplineModel :=
  let t := interpKnots x k
  let A := x.map (basisWeights t k)
  match gaussSolve A yflat with
  | none => none
  | some C => if matProd A C = yflat then some ⟨t, C, k⟩ else none

/-- Evaluation of a fitted B-spline at a point: the linear combination of
the coefficient rows with the basis values there. -/
def BSplineModel.eval (s : BSplineModel) (q : ℚ) : Vec :=
  linCombW (width s.c) (basisWeights s.t s.k q) s.c

/-! ### The `BeamEmulator` object

The constructor (lines 83–97) stores every argument as an attribute and,
when the Julia-ordering flag is set, shifts every unmasked index down by
one; it performs no other computation and no validation.  One attribute
needs care: the basis is stored under the name `cryobasis` (line 85),
while the accessor `cryo_basis_kl_to_beam` (line 210) reads the attribute
`cryo_basis`, which no method ever assigns.  Python raises
`AttributeError` on reading it unless a caller has assigned
`obj.cryo_basis` by hand, so the state carries `cryo_basis` as an
`Option Mat` that the constructor sets to `none`.

The coefficient tensor is carried with its leading (hyper-parameter) axis
explicit and the per-node `[F, L]` slice as a matrix, the layout the
claims exercise (one interpolation axis).
-/

/-- The attribute state of a `BeamEmulator` object.  Field names follow
the source's attribute names. -/
structure BeamEmulator where
  frequencies : List ℚ
  nside : ℕ
  cryobasis : Mat
  cryo_basis : Option Mat
  cryo_coefficients : List Mat
  hyper_parameter_array : List ℚ
  unmasked_indices : List ℤ
  interpolation_order : ℕ
  use_gpr : Bool
  coefficient_order : Option ℕ
  gpr_kwargs : GprKwargs
  return_beam_above_horizon : Bool
  unmasked_indices_in_julia_ordering : Bool
  deriving DecidableEq, Repr

/-- `BeamEmulator.__init__` (lines 83–97): store every argument, then
shift the unmasked indices down by one when the Julia-ordering flag is
set.  Nothing is validated and nothing can fail, so the result is a plain
state; the unwritten `cryo_basis` attribute starts absent. -/
def BeamEmulator.init (frequencies : List ℚ) (nside : ℕ) (cryobasis : Mat)
    (cryo_coefficients : List Mat) (hyper_parameter_array : List ℚ)
    (unmasked_indices : List ℤ) (interpolation_order : ℕ) (use_gpr : Bool)
    (coefficient_order : Option ℕ) (gpr_kwargs : GprKwargs)
    (return_beam_above_horizon : Bool)
    (unmasked_indices_in_julia_ordering : Bool) : BeamEmulator :=
  { frequencies := frequencies
    nside := nside
    cryobasis := cryobasis
    cryo_basis := none
    cryo_coefficients := cryo_coefficients
    hyper_parameter_array := hyper_parameter_array
    unmasked_indices :=
      if unmasked_indices_in_julia_ordering then unmasked_indices.map (fun i => i - 1)
      else unmasked_indices
    interpolation_order := interpolation_order
    use_gpr := use_gpr
    coefficient_order := coefficient_order
    gpr_kwargs := gpr_kwargs
    return_beam_above_horizon := return_beam_above_horizon
    unmasked_indices_in_julia_ordering := unmasked_indices_in_julia_ordering }

/-- The `cryo_basis_kl_to_beam` accessor (lines 207–212): read the
`cryo_basis` attribute — `AttributeError` when it was never assigned —
then transpose it and keep the first `coefficient_order` columns. -/
def BeamEmulator.cryo_basis_kl_to_beam (s : BeamEmulator) : Except PyErr Mat :=
  match s.cryo_basis with
  | none => .error (.attributeErr "cryo_basis")
  | some b => .ok (truncCols (matTranspose b) s.coefficient_order)

/-- The flattening `np.reshape(coeffs, (H, -1))` of the coefficient
tensor used when fitting (lines 102–103): one row per hyper-parameter
node. -/
def flattenCoefficients (coeffs : List Mat) : Mat := coeffs.map (fun slice => slice.flatten)

/-- The spline branch of `hyper_parameter_interpolater` (lines 143–150):
fit the interpolating spline of the configured order through the
coefficient tensor along the hyper-parameter axis. -/
def BeamEmulator.splineInterpolater (s : BeamEmulator) : Option BSplineModel :=
  make_interp_spline s.hyper_parameter_array (flattenCoefficients s.cryo_coefficients)
    s.interpolation_order

/-- One frequency row of the full-sky branch (lines 266–269): a
zero-initialised full-sky map, the basis-projected values for this
frequency, scattered to the unmasked indices. -/
def fullSkyRow (s : BeamEmulator) (kl : Mat) (interpCoeff : Mat) (ifreq : ℕ) :
    Except PyErr Vec :=
  let beamMap := List.replicate (npix s.nside) (0 : ℚ)
  match interpCoeff.get? ifreq with
  | none => .error (.indexErr "interp_coeff row out of range")
  | some row =>
    match matVec kl row with
    | .error e => .error e
    | .ok funks => npIndexAssign beamMap s.unmasked_indices funks

/-- `BeamEmulator.__call__` (lines 251–271), parameterised by the fitted
interpolator's prediction `interp` (for the spline branch, evaluation of
the fitted spline reshaped to `[F, L]`; for the GPR branch, `predict`
followed by the `(F, -1)` reshape — both produce one coefficient matrix
from the scalar `parameter[0]`).  `parameter[0]` on an empty sequence is
an `IndexError`; the horizon branch multiplies the truncated transposed
basis with the transposed coefficient matrix; the full-sky branch builds
one scattered map per frequency, touching the broken
`cryo_basis_kl_to_beam` accessor inside the loop. -/
def BeamEmulator.call (s : BeamEmulator) (interp : ℚ → Mat) (parameter : List ℚ) :
    Except PyErr Mat :=
  match parameter with
  | [] => .error (.indexErr "tuple index out of range")
  | p :: _ =>
    let interpCoeff := interp p
    if s.return_beam_above_horizon then
      match s.cryo_basis_kl_to_beam with
      | .error e => .error e
      | .ok kl => matMul kl (matTranspose interpCoeff)
    else
      exceptMap (fun ifreq =>
          match s.cryo_basis_kl_to_beam with
          | .error e => .error e
          | .ok kl => fullSkyRow s kl interpCoeff ifreq)
        (List.range s.frequencies.length)

/-- The `P` basis-projected values for one frequency: the truncated
transposed basis applied to that frequency's interpolated coefficient row
(the payload of `matVec` at line 267). -/
def projectedValues (kl : Mat) (interpCoeff : Mat) (f : ℕ) : Vec :=
  kl.map (fun r => dot r (interpCoeff.getD f []))

/-! ### Helper lemmas -/

theorem getD_set_ne (l : Vec) (v : ℚ) : ∀ (j q : ℕ), j ≠ q →
    (l.set j v).getD q 0 = l.getD q 0 := by
  induction l with
  | nil => intro j q _; cases j <;> rfl
  | cons a tl ih =>
    intro j q hne
    cases j with
    | zero => cases q with
      | zero => exact absurd rfl hne
      | succ q => rfl
    | succ j => cases q with
      | zero => rfl
      | succ q => simpa using ih j q (by omega)

theorem getD_set_self (l : Vec) (v : ℚ) : ∀ (q : ℕ), q < l.length →
    (l.set q v).getD q 0 = v := by
  induction l with
  | nil => intro q hq; simp at hq
  | cons a tl ih =>
    intro q hq
    cases q with
    | zero => rfl
    | succ q => simpa using ih q (by simpa using hq)

theorem npAssignPairsPure_length (ps : List (ℤ × ℚ)) :
    ∀ arr : Vec, (npAssignPairsPure arr ps).length = arr.length := by
  induction ps with
  | nil => intro arr; rfl
  | cons iv rest ih =>
    intro arr
    simp only [npAssignPairsPure]
    rw [ih, List.length_set]

theorem npAssignPairs_eq_pure (ps : List (ℤ × ℚ)) :
    ∀ arr : Vec, (∀ iv ∈ ps, 0 ≤ iv.1 ∧ iv.1 < (arr.length : ℤ)) →
      npAssignPairs arr ps = .ok (npAssignPairsPure arr ps) := by
  induction ps with
  | nil => intro arr _; rfl
  | cons iv rest ih =>
    intro arr h
    have hiv := h iv (by simp)
    simp only [npAssignPairs, npSetIdx]
    rw [if_pos hiv]
    simp only [npAssignPairsPure]
    rw [if_neg (by omega)]
    exact ih _ (fun jv hjv => by
      have := h jv (by simp [hjv])
      simpa [List.length_set] using this)

theorem npAssignPairsPure_notmem (ps : List (ℤ × ℚ)) :
    ∀ (arr : Vec) (q : ℕ), (∀ iv ∈ ps, 0 ≤ iv.1) → (∀ iv ∈ ps, iv.1.toNat ≠ q) →
      (npAssignPairsPure arr ps).getD q 0 = arr.getD q 0 := by
  induction ps with
  | nil => intro arr q _ _; rfl
  | cons iv rest ih =>
    intro arr q hnn hne
    simp only [npAssignPairsPure]
    rw [if_neg (by have := hnn iv (by simp); omega)]
    rw [ih _ q (fun jv hjv => hnn jv (by simp [hjv])) (fun jv hjv => hne jv (by simp [hjv]))]
    exact getD_set_ne _ _ _ _ (hne iv (by simp))

theorem npAssignPairsPure_getD (ps : List (ℤ × ℚ)) :
    ∀ (arr : Vec) (j : ℕ) (hj : j < ps.length),
      (∀ iv ∈ ps, 0 ≤ iv.1 ∧ iv.1 < (arr.length : ℤ)) →
      (ps.map Prod.fst).Nodup →
      (npAssignPairsPure arr ps).getD ((ps.get ⟨j, hj⟩).1.toNat) 0 = (ps.get ⟨j, hj⟩).2 := by
  induction ps with
  | nil => intro arr j hj _ _; simp at hj
  | cons iv rest ih =>
    intro arr j hj hbd hnd
    cases j with
    | zero =>
      simp only [List.get, npAssignPairsPure]
      have hiv := hbd iv (by simp)
      rw [if_neg (by omega)]
      rw [npAssignPairsPure_notmem rest _ _
        (fun jv hjv => (hbd jv (by simp [hjv])).1)
        (fun jv hjv => by
          intro hEq
          have hmem : jv.1 ∈ rest.map Prod.fst := List.mem_map_of_mem _ hjv
          have hji := (hbd jv (by simp [hjv])).1
          have : jv.1 = iv.1 := by omega
          rw [this] at hmem
          exact (List.nodup_cons.mp hnd).1 hmem)]
      exact getD_set_self _ _ _ (by omega)
    | succ j =>
      simp only [List.get, npAssignPairsPure]
      have hiv := hbd iv (by simp)
      rw [if_neg (by omega)]
      exact ih _ j (by simpa using hj)
        (fun jv hjv => by
          have := hbd jv (by simp [hjv])
          simpa [List.length_set] using this)
        ((List.nodup_cons.mp hnd).2)

theorem exceptMap_ok {α β : Type} (f : α → Except PyErr β) (g : α → β) :
    ∀ l : List α, (∀ x ∈ l, f x = .ok (g x)) → exceptMap f l = .ok (l.map g) := by
  intro l
  induction l with
  | nil => intro _; rfl
  | cons a tl ih =>
    intro h
    simp only [exceptMap, h a (by simp), ih (fun x hx => h x (by simp [hx])), List.map_cons]

theorem linCombW_length (m : ℕ) : ∀ (r : Vec) (B : Mat),
    (∀ row ∈ B, row.length = m) → (linCombW m r B).length = m := by
  have key : ∀ (ps : List (ℚ × Vec)), (∀ p ∈ ps, p.2.length = m) →
      (ps.foldr (fun av acc => List.zipWith (· + ·) (av.2.map (av.1 * ·)) acc)
        (List.replicate m (0 : ℚ))).length = m := by
    intro ps
    induction ps with
    | nil => intro _; simp
    | cons p rest ih =>
      intro h
      simp only [List.foldr]
      rw [List.length_zipWith, List.length_map, ih (fun x hx => h x (by simp [hx])),
        h p (by simp)]
      omega
  intro r B h
  exact key (r.zip B) (fun p hp => h p.2 (List.of_mem_zip hp).2)

theorem matTranspose_length (m : Mat) : (matTranspose m).length = width m := by
  simp [matTranspose]

theorem exceptMap_const_error {α β : Type} (l : List α) (hne : l ≠ []) (e : PyErr) :
    exceptMap (fun _ => (Except.error e : Except PyErr β)) l = .error e := by
  cases l with
  | nil => exact absurd rfl hne
  | cons a tl => rfl

theorem matTranspose_row_length (m : Mat) : ∀ row ∈ matTranspose m, row.length = m.length := by
  intro row hrow
  simp only [matTranspose, List.mem_map] at hrow
  obtain ⟨j, _, hj⟩ := hrow
  rw [← hj, List.length_map]

theorem width_matTranspose (m : Mat) (hw : 0 < width m) :
    width (matTranspose m) = m.length := by
  obtain ⟨n, hn⟩ : ∃ n, width m = n + 1 := ⟨width m - 1, by omega⟩
  unfold matTranspose
  rw [hn, List.range_succ_eq_map]
  simp [width]


theorem getD_replicate_zero : ∀ (n i : ℕ), (List.replicate n (0 : ℚ)).getD i 0 = 0 := by
  intro n
  induction n with
  | zero => intro i; rfl
  | succ n ih =>
    intro i
    cases i with
    | zero => rfl
    | succ i => simp [List.replicate]

/-! ### Claim theorems -/

/-- C8: if the one-based (Julia) index-origin flag is set at construction,
every PixelMask index is decreased by exactly 1 before any use, and by
nothing otherwise; in particular a one-based mask `[1, 5, 10]` with the
flag set yields internal indices `[0, 4, 9]`. -/
theorem julia_index_shift :
    (∀ frequencies nside cryobasis cryo_coefficients hyper_parameter_array
        (unmasked_indices : List ℤ) interpolation_order use_gpr coefficient_order
        gpr_kwargs rbah,
      (BeamEmulator.init frequencies nside cryobasis cryo_coefficients
          hyper_parameter_array unmasked_indices interpolation_order use_gpr
          coefficient_order gpr_kwargs rbah true).unmasked_indices
        = unmasked_indices.map (fun i => i - 1) ∧
      (BeamEmulator.init frequencies nside cryobasis cryo_coefficients
          hyper_parameter_array unmasked_indices interpolation_order use_gpr
          coefficient_order gpr_kwargs rbah false).unmasked_indices
        = unmasked_indices) ∧
    (BeamEmulator.init [] 0 [] [] [] [1, 5, 10] 3 false none
        ⟨"RBF", true, "MultiOutput"⟩ false true).unmasked_indices = [0, 4, 9] :=
  ⟨fun _ _ _ _ _ _ _ _ _ _ _ => ⟨rfl, rfl⟩, by decide⟩

/-- C10: with the Julia-ordering flag set (its default), a supplied
PixelMask index 0 is shifted to the internal index `-1`, which numpy index
assignment accepts and routes to the last position of the array it writes;
end to end, a full-sky query with mask `[0]` writes the projected value
into position `12·nside² - 1` of an otherwise zero map. -/
theorem zero_index_wraps_to_last_pixel :
    (∀ (rest : List ℤ) frequencies nside cryobasis cryo_coefficients
        hyper_parameter_array interpolation_order use_gpr coefficient_order
        gpr_kwargs rbah,
      (BeamEmulator.init frequencies nside cryobasis cryo_coefficients
          hyper_parameter_array ((0 : ℤ) :: rest) interpolation_order use_gpr
          coefficient_order gpr_kwargs rbah true).unmasked_indices
        = (-1 : ℤ) :: rest.map (fun i => i - 1)) ∧
    (∀ (arr : Vec) (v : ℚ),
      npIndexAssign arr [(-1 : ℤ)] [v]
        = if arr.length = 0 then .error (.indexErr "index out of bounds")
          else .ok (arr.set (arr.length - 1) v)) ∧
    BeamEmulator.call { (BeamEmulator.init [100] 1 [[2]] [] [] [0] 3 false none
        ⟨"RBF", true, "MultiOutput"⟩ false true) with cryo_basis := some [[2]] }
      (fun _ => [[3]]) [5]
      = .ok [[0, 0, 0, 0, 0, 0, 0, 0, 0, 0, 0, 6]] := by
  refine ⟨fun _ _ _ _ _ _ _ _ _ _ _ => rfl, fun arr v => ?_, by with_unfolding_all rfl⟩
  rcases arr with _ | ⟨a, tl⟩
  · rfl
  · rw [if_neg (by simp)]
    show npAssignPairs (a :: tl) [((-1 : ℤ), v)] = _
    unfold npAssignPairs npSetIdx
    rw [if_neg (by omega), if_pos (by simp only [List.length_cons]; omega)]
    show Except.ok ((a :: tl).set ((-1 : ℤ) + (a :: tl).length).toNat v) = _
    congr 2
    simp only [List.length_cons]
    omega

/-- C3 (counterexample): a `BeamEmulator` constructed with an empty
frequency list and queried in full-sky mode never executes the loop body,
so the broken `cryo_basis_kl_to_beam` accessor is not reached and the call
returns an empty array instead of raising. -/
theorem call_empty_frequencies_no_raise :
    BeamEmulator.call (BeamEmulator.init [] 1 [[1]] [] [] [] 3 false none
      ⟨"RBF", true, "MultiOutput"⟩ false true) (fun _ => []) [5] = .ok [] := by
  decide

/-- C3 (amended): `__init__` stores the basis only under `cryobasis` and
never assigns `cryo_basis`, so on every constructed emulator the
`cryo_basis` attribute is absent; consequently every call whose parameter
sequence is nonempty — always in horizon-restricted mode, and whenever the
frequency list is nonempty in full-sky mode — reaches the
`cryo_basis_kl_to_beam` accessor and fails with
`AttributeError("cryo_basis")` before producing any pixel values.  (With
an empty frequency list the full-sky loop body never runs and an empty
array is returned instead.) -/
theorem call_missing_attribute :
    (∀ frequencies nside cryobasis cryo_coefficients hyper_parameter_array
        unmasked_indices interpolation_order use_gpr coefficient_order gpr_kwargs
        rbah julia,
      (BeamEmulator.init frequencies nside cryobasis cryo_coefficients
          hyper_parameter_array unmasked_indices interpolation_order use_gpr
          coefficient_order gpr_kwargs rbah julia).cryo_basis = none) ∧
    (∀ (s : BeamEmulator) (interp : ℚ → Mat) (q : ℚ) (ps : List ℚ),
      s.cryo_basis = none →
      (s.return_beam_above_horizon = true ∨ s.frequencies ≠ []) →
      s.call interp (q :: ps) = .error (.attributeErr "cryo_basis")) := by
  refine ⟨fun _ _ _ _ _ _ _ _ _ _ _ _ => rfl, fun s interp q ps hB hmode => ?_⟩
  have hacc : s.cryo_basis_kl_to_beam = .error (.attributeErr "cryo_basis") := by
    simp [BeamEmulator.cryo_basis_kl_to_beam, hB]
  rcases hmode with hmode | hmode
  · simp [BeamEmulator.call, hmode, hacc]
  · have hne : List.range s.frequencies.length ≠ [] := by
      cases hfreq : s.frequencies with
      | nil => exact absurd hfreq hmode
      | cons f fs => simp
    cases hcase : s.return_beam_above_horizon with
    | true => simp [BeamEmulator.call, hcase, hacc]
    | false =>
      simp only [BeamEmulator.call, hcase, Bool.false_eq_true, if_false, hacc]
      exact exceptMap_const_error _ hne _

/-- C3 (witness): a concrete horizon-restricted call on a bare
construction raises the missing-attribute error. -/
theorem call_missing_attribute_witness :
    BeamEmulator.call (BeamEmulator.init [7] 2 [[1]] [] [] [2] 3 false none
      ⟨"RBF", true, "MultiOutput"⟩ true true) (fun _ => [[1]]) [3]
      = .error (.attributeErr "cryo_basis") :=
  call_missing_attribute.2
    (BeamEmulator.init [7] 2 [[1]] [] [] [2] 3 false none
      ⟨"RBF", true, "MultiOutput"⟩ true true)
    (fun _ => [[1]]) 3 [] rfl (Or.inl rfl)

/-- C5 (counterexample): construction with inconsistent shapes succeeds
without raising anything — here the basis has pixel axis 2 while the
PixelMask has 3 indices, and the coefficient tensor and hyper-parameter
grid are empty while one frequency is supplied, yet `__init__` just stores
everything.  There is no DimensionMismatch check anywhere in the
constructor. -/
theorem init_no_dimension_check :
    BeamEmulator.init [1] 1 [[1, 2], [3, 4]] [] [] [0, 1, 2] 3 false none
        ⟨"RBF", true, "MultiOutput"⟩ false false
      = { frequencies := [1], nside := 1, cryobasis := [[1, 2], [3, 4]],
          cryo_basis := none, cryo_coefficients := [], hyper_parameter_array := [],
          unmasked_indices := [0, 1, 2], interpolation_order := 3, use_gpr := false,
          coefficient_order := none, gpr_kwargs := ⟨"RBF", true, "MultiOutput"⟩,
          return_beam_above_horizon := false,
          unmasked_indices_in_julia_ordering := false } := rfl

/-- C5 (amended): `__init__` performs no shape validation at all: for
every combination of arguments it succeeds and returns the state holding
the arguments verbatim, with index-origin normalization as the only
transformation; a PixelMask/basis length mismatch is not detected until a
query scatters the projected values, where it surfaces as a numpy
`ValueError`, not as a construction-time DimensionMismatch. -/
theorem init_stores_unvalidated :
    (∀ frequencies nside cryobasis cryo_coefficients hyper_parameter_array
        (unmasked_indices : List ℤ) interpolation_order use_gpr coefficient_order
        gpr_kwargs rbah julia,
      BeamEmulator.init frequencies nside cryobasis cryo_coefficients
          hyper_parameter_array unmasked_indices interpolation_order use_gpr
          coefficient_order gpr_kwargs rbah julia
        = { frequencies := frequencies, nside := nside, cryobasis := cryobasis,
            cryo_basis := none, cryo_coefficients := cryo_coefficients,
            hyper_parameter_array := hyper_parameter_array,
            unmasked_indices :=
              if julia then unmasked_indices.map (fun i => i - 1) else unmasked_indices,
            interpolation_order := interpolation_order, use_gpr := use_gpr,
            coefficient_order := coefficient_order, gpr_kwargs := gpr_kwargs,
            return_beam_above_horizon := rbah,
            unmasked_indices_in_julia_ordering := julia }) ∧
    BeamEmulator.call { (BeamEmulator.init [1] 1 [[1, 2], [3, 4]] [] [] [0, 1, 2] 3
        false none ⟨"RBF", true, "MultiOutput"⟩ false false) with
          cryo_basis := some [[1, 2], [3, 4]] }
      (fun _ => [[1, 1]]) [0]
      = .error (.valueErr "shape mismatch in index assignment") :=
  ⟨fun _ _ _ _ _ _ _ _ _ _ _ _ => rfl, by decide⟩

/-- C6 (counterexample): in Gaussian-process mode, a kernel name outside
the enumerated set does not fail with a ConfigurationError: the `if`/`elif`
chain has no `else`, so the local `kernel` is never bound and the
construction of the regressor raises `UnboundLocalError("kernel")`;
likewise an unknown regressor name leaves `regr` unbound and the loop over
`regr.estimators_` raises `UnboundLocalError("regr")`. -/
theorem unknown_kernel_unbound_local :
    gprFit true ⟨"Foo", true, "MultiOutput"⟩ = .error (.unboundLocalErr "kernel") ∧
    gprFit true ⟨"RBF", true, "Foo"⟩ = .error (.unboundLocalErr "regr") := by
  constructor <;> decide

/-- C6 (amended): each enumerated kernel name selects its documented
kernel (`RBF`, `Matern(ν=2.5)`, `Matern(ν=1.5)`, `RationalQuadratic(α=1.5)`,
each scaled by a unit constant factor) and each enumerated regressor name
its documented wrapper, in which case fitting is configured with 20
optimizer restarts; but a name outside the respective enumerated set fails
with an incidental `UnboundLocalError` (`kernel` or `regr` referenced
before assignment), not with a ConfigurationError. -/
theorem kernel_regressor_selection :
    selectKernel "RBF" = some ⟨"RBF", 1, 1, none, none⟩ ∧
    selectKernel "Matern_2_5" = some ⟨"Matern", 1, 1, some (5/2), none⟩ ∧
    selectKernel "Matern_1_5" = some ⟨"Matern", 1, 1, some (3/2), none⟩ ∧
    selectKernel "RQ" = some ⟨"RationalQuadratic", 1, 1, none, some (3/2)⟩ ∧
    selectRegressor "MultiOutput" = some .multiOutput ∧
    selectRegressor "RegressorChain" = some .regressorChain ∧
    (∀ kw ks rg, selectKernel kw.kernel = some ks → selectRegressor kw.regressor = some rg →
      gprFit true kw = .ok ⟨ks, rg, 20, kw.normalize_y⟩) ∧
    (∀ kw, selectKernel kw.kernel = none →
      gprFit true kw = .error (.unboundLocalErr "kernel")) ∧
    (∀ kw ks, selectKernel kw.kernel = some ks → selectRegressor kw.regressor = none →
      gprFit true kw = .error (.unboundLocalErr "regr")) := by
  refine ⟨rfl, rfl, rfl, rfl, rfl, rfl,
    fun kw ks rg hk hr => ?_, fun kw hk => ?_, fun kw ks hk hr => ?_⟩ <;>
    simp [gprFit, hk]
  · simp [hr]
  · simp [hr]

/-- C6 (witness for the quantified parts of `kernel_regressor_selection`):
the three fit behaviours at concrete kernel/regressor names. -/
theorem kernel_regressor_selection_witness :
    gprFit true ⟨"Matern_1_5", false, "RegressorChain"⟩
      = .ok ⟨⟨"Matern", 1, 1, some (3/2), none⟩, .regressorChain, 20, false⟩ ∧
    gprFit true ⟨"Bar", false, "MultiOutput"⟩ = .error (.unboundLocalErr "kernel") ∧
    gprFit true ⟨"RQ", false, "Bar"⟩ = .error (.unboundLocalErr "regr") :=
  ⟨kernel_regressor_selection.2.2.2.2.2.2.1 ⟨"Matern_1_5", false, "RegressorChain"⟩
      ⟨"Matern", 1, 1, some (3/2), none⟩ .regressorChain rfl
      rfl,
    kernel_regressor_selection.2.2.2.2.2.2.2.1 ⟨"Bar", false, "MultiOutput"⟩
      rfl,
    kernel_regressor_selection.2.2.2.2.2.2.2.2 ⟨"RQ", false, "Bar"⟩
      ⟨"RationalQuadratic", 1, 1, none, some (3/2)⟩ rfl
      rfl⟩

/-- C7 (counterexample): with the regression backend unavailable, nothing
fails at configuration time and nothing mentions a missing dependency: the
module-level import guard merely prints a message, construction with
`use_gpr = True` succeeds, and the failure only appears when the first fit
evaluates the undefined kernel class, as a `NameError` — not a
MissingDependency error. -/
theorem gpr_missing_backend_no_config_error :
    (BeamEmulator.init [1] 1 [[1]] [] [] [] 3 true none
        ⟨"RBF", true, "MultiOutput"⟩ false false).use_gpr = true ∧
    gprFit false ⟨"RBF", true, "MultiOutput"⟩ = .error (.nameErr "RBF") := by
  constructor <;> decide

/-- C7 (amended): when the regression backend is unavailable, requesting
Gaussian-process mode does not fail at configuration time with a
MissingDependency error; the failure surfaces at first fit/predict time as
a `NameError` naming the undefined kernel class (or
`GaussianProcessRegressor` itself when no kernel branch matched), and is
never a MissingDependency error.  The spline strategy does not involve the
backend at all and remains fully usable. -/
theorem gpr_missing_backend_fails_at_use :
    (∀ kw ks, selectKernel kw.kernel = some ks →
      gprFit false kw = .error (.nameErr ks.family)) ∧
    (∀ kw, selectKernel kw.kernel = none →
      gprFit false kw = .error (.nameErr "GaussianProcessRegressor")) ∧
    (∀ kw m, gprFit false kw ≠ .error (.missingDependencyErr m)) ∧
    make_interp_spline [0, 1, 2] [[5], [7], [9]] 1
      = some ⟨[0, 0, 1, 2, 2], [[5], [7], [9]], 1⟩ := by
  refine ⟨fun kw ks hk => by simp [gprFit, hk], fun kw hk => by simp [gprFit, hk],
    fun kw m => ?_, ?_⟩
  · cases hk : selectKernel kw.kernel <;> simp [gprFit, hk]
  · with_unfolding_all rfl

/-- C7 (witness for the quantified parts of
`gpr_missing_backend_fails_at_use`): concrete fits with the backend
unavailable. -/
theorem gpr_missing_backend_witness :
    gprFit false ⟨"RQ", false, "RegressorChain"⟩ = .error (.nameErr "RationalQuadratic") ∧
    gprFit false ⟨"Baz", false, "MultiOutput"⟩ = .error (.nameErr "GaussianProcessRegressor") ∧
    gprFit false ⟨"Baz", false, "MultiOutput"⟩ ≠ .error (.missingDependencyErr "sklearn") :=
  ⟨gpr_missing_backend_fails_at_use.1 ⟨"RQ", false, "RegressorChain"⟩
      ⟨"RationalQuadratic", 1, 1, none, some (3/2)⟩ rfl,
    gpr_missing_backend_fails_at_use.2.1 ⟨"Baz", false, "MultiOutput"⟩
      rfl,
    gpr_missing_backend_fails_at_use.2.2.1 ⟨"Baz", false, "MultiOutput"⟩ "sklearn"⟩

/-- C2 (counterexample): in horizon-restricted mode the source computes
`matmul(cryo_basis_kl_to_beam, interp_coeff.T)`, whose shape is `[P, F]`,
not the claimed `[F, P]`: with one frequency and two above-horizon pixels
(basis `1 × 2`, so the transposed projector is `2 × 1`), the query returns
`[[3], [6]]` — two rows of one value each, one row per pixel — instead of
one row of two values.  (The state has `cryo_basis` assigned by hand;
without that, the call does not return an array at all but raises, which
also contradicts the claim.) -/
theorem horizon_shape_counterexample :
    BeamEmulator.call { (BeamEmulator.init [50] 1 [[1, 2]] [] [] [0, 3] 3 false none
        ⟨"RBF", true, "MultiOutput"⟩ true false) with cryo_basis := some [[1, 2]] }
      (fun _ => [[3]]) [9] = .ok [[3], [6]] := by
  with_unfolding_all rfl

/-- C2 (amended): in horizon-restricted mode, provided the `cryo_basis`
attribute has been assigned (a bare construction raises instead), the
query returns the transposed shape `[P, F]`: the product of the truncated
transposed basis with the transposed coefficient matrix, with one row per
basis pixel-axis entry (`P` rows, equal to `len(PixelMask)` when the
shapes are consistent) and one column per frequency — still exactly `P`
values per frequency, but as columns, not rows. -/
theorem horizon_shape_transposed (s : BeamEmulator) (interp : ℚ → Mat)
    (q : ℚ) (ps : List ℚ) (kl : Mat)
    (hmode : s.return_beam_above_horizon = true)
    (hkl : s.cryo_basis_kl_to_beam = .ok kl)
    (hw : 0 < width (interp q))
    (hdim : ∀ r ∈ kl, r.length = width (interp q)) :
    BeamEmulator.call s interp (q :: ps) = .ok (matProd kl (matTranspose (interp q))) ∧
    (matProd kl (matTranspose (interp q))).length = kl.length ∧
    (∀ row ∈ matProd kl (matTranspose (interp q)), row.length = (interp q).length) := by
  refine ⟨?_, by simp [matProd], fun row hrow => ?_⟩
  · simp only [BeamEmulator.call, hmode, if_true, hkl]
    rw [matMul, if_pos]
    rw [List.all_eq_true]
    intro r hr
    rw [decide_eq_true_eq, matTranspose_length]
    exact hdim r hr
  · simp only [matProd, List.mem_map] at hrow
    obtain ⟨r, _, hr⟩ := hrow
    rw [← hr, linCombW_length _ _ _ (fun row2 h2 => by
      rw [matTranspose_row_length (interp q) row2 h2, ← width_matTranspose _ hw])]
    exact width_matTranspose _ hw

/-- C2 (witness): the amended horizon-mode shape at a concrete instance
with a `1 × 3` basis (three above-horizon pixels) and two frequencies: the
result is the `3 × 2` product. -/
theorem horizon_shape_witness :
    BeamEmulator.call { (BeamEmulator.init [50, 60] 1 [[1, 2, 3]] [] [] [0, 1, 2] 3
        false none ⟨"RBF", true, "MultiOutput"⟩ true false) with
          cryo_basis := some [[1, 2, 3]] }
      (fun _ => [[4], [5]]) [8]
      = .ok (matProd (matTranspose [[1, 2, 3]]) (matTranspose [[4], [5]])) ∧
    (matProd (matTranspose [[1, 2, 3]]) (matTranspose [[4], [5]])).length
      = (matTranspose [[1, 2, 3]]).length ∧
    (∀ row ∈ matProd (matTranspose [[1, 2, 3]]) (matTranspose [[4], [5]]),
      row.length = ([[4], [5]] : Mat).length) :=
  horizon_shape_transposed
    { (BeamEmulator.init [50, 60] 1 [[1, 2, 3]] [] [] [0, 1, 2] 3 false none
        ⟨"RBF", true, "MultiOutput"⟩ true false) with cryo_basis := some [[1, 2, 3]] }
    (fun _ => [[4], [5]]) 8 [] (matTranspose [[1, 2, 3]]) rfl rfl (by decide) (by decide)

/-- Rows of the full-sky branch do not depend on the truncation order
except through the projector passed in. -/
theorem fullSkyRow_congr (s1 s2 : BeamEmulator) (h1 : s1.nside = s2.nside)
    (h2 : s1.unmasked_indices = s2.unmasked_indices) (kl ic : Mat) (i : ℕ) :
    fullSkyRow s1 kl ic i = fullSkyRow s2 kl ic i := by
  simp [fullSkyRow, h1, h2]

/-- C9: truncating to the full coefficient count is the identity: for
every state whose (assigned) `cryo_basis` has `L` rows, and for every
query, setting `coefficient_order = L` produces exactly the same result as
`coefficient_order = None` — the `[:, :L]` slice of the `L`-column
transposed basis keeps every column.  (On a state where `cryo_basis` was
never assigned both runs raise the same `AttributeError`, so the
hypothesis only constrains the assigned case.) -/
theorem truncation_full_order_identity (s : BeamEmulator) (interp : ℚ → Mat)
    (parameter : List ℚ) (n : ℕ)
    (hn : ∀ B, s.cryo_basis = some B → n = B.length) :
    BeamEmulator.call { s with coefficient_order := some n } interp parameter
      = BeamEmulator.call { s with coefficient_order := none } interp parameter := by
  have hacc : ({ s with coefficient_order := some n } : BeamEmulator).cryo_basis_kl_to_beam
      = ({ s with coefficient_order := none } : BeamEmulator).cryo_basis_kl_to_beam := by
    show (match s.cryo_basis with
      | none => Except.error (PyErr.attributeErr "cryo_basis")
      | some b => Except.ok (truncCols (matTranspose b) (some n)))
      = (match s.cryo_basis with
      | none => Except.error (PyErr.attributeErr "cryo_basis")
      | some b => Except.ok (truncCols (matTranspose b) none))
    cases hB : s.cryo_basis with
    | none => rfl
    | some B =>
      simp only [truncCols]
      congr 1
      have hrows : ∀ r ∈ matTranspose B, r.take n = r := by
        intro r hr
        rw [hn B hB, ← matTranspose_row_length B r hr]
        exact List.take_length r
      calc (matTranspose B).map (fun r => r.take n)
          = (matTranspose B).map id := List.map_congr_left hrows
        _ = matTranspose B := List.map_id _
  cases parameter with
  | nil => rfl
  | cons p ps =>
    simp only [BeamEmulator.call, hacc]
    have hrow : ∀ kl ic i, fullSkyRow { s with coefficient_order := some n } kl ic i
        = fullSkyRow { s with coefficient_order := none } kl ic i :=
      fun kl ic i => fullSkyRow_congr _ _ rfl rfl kl ic i
    simp only [hrow]

/-- C9 (witness): the identity at a concrete state with an assigned
`2 × 2` basis: truncation order 2 (the full coefficient count) and no
truncation give the same full-sky query result. -/
theorem truncation_full_order_witness :
    BeamEmulator.call { (BeamEmulator.init [50] 1 [[1, 2], [3, 4]] [] [] [0, 1] 3
        false none ⟨"RBF", true, "MultiOutput"⟩ false false) with
          cryo_basis := some [[1, 2], [3, 4]], coefficient_order := some 2 }
      (fun _ => [[9, 7]]) [2]
      = BeamEmulator.call { (BeamEmulator.init [50] 1 [[1, 2], [3, 4]] [] [] [0, 1] 3
        false none ⟨"RBF", true, "MultiOutput"⟩ false false) with
          cryo_basis := some [[1, 2], [3, 4]], coefficient_order := none }
      (fun _ => [[9, 7]]) [2] :=
  truncation_full_order_identity
    { (BeamEmulator.init [50] 1 [[1, 2], [3, 4]] [] [] [0, 1] 3 false none
        ⟨"RBF", true, "MultiOutput"⟩ false false) with cryo_basis := some [[1, 2], [3, 4]] }
    (fun _ => [[9, 7]]) [2] 2
    (fun B hB => by
      have h := Option.some.inj hB
      rw [← h]
      rfl)

/-- C4: with the spline strategy, prediction at a training node reproduces
the stored coefficient tensor slice exactly (the model works over ℚ, so
"within floating tolerance" strengthens to equality): whenever
`make_interp_spline` succeeds — i.e. whenever the collocation system has
the exact solution scipy's solver computes — evaluating the fitted spline
at the `i`-th hyper-parameter node returns the `i`-th stored (flattened
`[F, L]`) coefficient slice, for every frequency and coefficient index. -/
theorem spline_reproduces_training_nodes (x : List ℚ) (yflat : Mat) (k : ℕ)
    (sp : BSplineModel) (hfit : make_interp_spline x yflat k = some sp)
    (i : ℕ) (hi : i < x.length) :
    sp.eval (x.get ⟨i, hi⟩) = yflat.getD i [] := by
  simp only [make_interp_spline] at hfit
  cases hg : gaussSolve (x.map (basisWeights (interpKnots x k) k)) yflat with
  | none => rw [hg] at hfit; exact absurd hfit (by simp)
  | some C =>
    simp only [hg] at hfit
    by_cases hchk : matProd (x.map (basisWeights (interpKnots x k) k)) C = yflat
    · rw [if_pos hchk] at hfit
      cases Option.some.inj hfit
      rw [← hchk]
      have hlen : i < (matProd (x.map (basisWeights (interpKnots x k) k)) C).length := by
        simpa [matProd] using hi
      rw [List.getD_eq_getElem _ _ hlen]
      simp only [matProd, List.getElem_map, BSplineModel.eval, List.get_eq_getElem]
    · rw [if_neg hchk] at hfit
      exact absurd hfit (by simp)

/-- C4 (witness): a concrete linear-spline fit through three nodes with
two output components; prediction at the middle node returns the stored
slice. -/
theorem spline_reproduces_witness :
    make_interp_spline [1, 2, 3] [[10, 20], [30, 40], [50, 60]] 1
      = some ⟨[1, 1, 2, 3, 3], [[10, 20], [30, 40], [50, 60]], 1⟩ ∧
    BSplineModel.eval ⟨[1, 1, 2, 3, 3], [[10, 20], [30, 40], [50, 60]], 1⟩ 2
      = [30, 40] := by
  have hfit : make_interp_spline [1, 2, 3] [[10, 20], [30, 40], [50, 60]] 1
      = some ⟨[1, 1, 2, 3, 3], [[10, 20], [30, 40], [50, 60]], 1⟩ := by
    with_unfolding_all rfl
  refine ⟨hfit, ?_⟩
  have h := spline_reproduces_training_nodes [1, 2, 3] [[10, 20], [30, 40], [50, 60]] 1
    ⟨[1, 1, 2, 3, 3], [[10, 20], [30, 40], [50, 60]], 1⟩ hfit 1 (by decide)
  simpa using h

/-- C1: the claim as stated is broken by the `cryo_basis` attribute slip:
a bare construction followed by a full-sky query raises
`AttributeError("cryo_basis")` (the constructor stores the basis only as
`cryobasis`) instead of returning the claimed `[F, 12·nside²]` array —
first conjunct, at the spec's own kind of input.  The intended behaviour
holds as soon as the attribute is assigned — second conjunct: with a
projector available, compatible shapes and an in-range duplicate-free
normalized mask, the full-sky query returns one row per frequency of
length `12·nside²`, holding the `P` basis-projected values at the mask
positions and exact zeros at every other pixel index. -/
theorem fullsky_masked_scatter :
    (BeamEmulator.call (BeamEmulator.init [50] 1 [[1, 2]] [] [] [0, 3] 3 false none
        ⟨"RBF", true, "MultiOutput"⟩ false false) (fun _ => [[5]]) [7]
      = .error (.attributeErr "cryo_basis")) ∧
    (∀ (s : BeamEmulator) (interp : ℚ → Mat) (p : ℚ) (ps : List ℚ) (kl : Mat),
      s.return_beam_above_horizon = false →
      s.cryo_basis_kl_to_beam = .ok kl →
      s.frequencies.length ≤ (interp p).length →
      (∀ r ∈ kl, ∀ row ∈ interp p, r.length = row.length) →
      s.unmasked_indices.length = kl.length →
      (∀ i ∈ s.unmasked_indices, 0 ≤ i ∧ i < (npix s.nside : ℤ)) →
      s.unmasked_indices.Nodup →
      ∃ out, s.call interp (p :: ps) = .ok out ∧
        out.length = s.frequencies.length ∧
        ∀ f, f < s.frequencies.length →
          (out.getD f []).length = npix s.nside ∧
          (∀ j, j < s.unmasked_indices.length →
            (out.getD f []).getD (s.unmasked_indices.getD j 0).toNat 0
              = (projectedValues kl (interp p) f).getD j 0) ∧
          (∀ q, q < npix s.nside → (∀ i ∈ s.unmasked_indices, i.toNat ≠ q) →
            (out.getD f []).getD q 0 = 0)) := by
  refine ⟨by with_unfolding_all rfl, ?_⟩
  intro s interp p ps kl hmode hkl hF hdim hlen hnn hnd
  have hzbd : ∀ f, ∀ iv ∈ s.unmasked_indices.zip
      (kl.map (fun r => dot r ((interp p).getD f []))),
      0 ≤ iv.1 ∧ iv.1 < ((List.replicate (npix s.nside) (0 : ℚ)).length : ℤ) := by
    intro f iv hiv
    have h1 := hnn iv.1 (List.of_mem_zip hiv).1
    simpa [List.length_replicate] using h1
  have hzlen : ∀ f, s.unmasked_indices.length
      = (kl.map (fun r => dot r ((interp p).getD f []))).length := by
    intro f
    rw [List.length_map]
    exact hlen
  refine ⟨(List.range s.frequencies.length).map (fun f =>
    npAssignPairsPure (List.replicate (npix s.nside) 0)
      (s.unmasked_indices.zip (kl.map (fun r => dot r ((interp p).getD f []))))),
    ?_, by simp, fun f hf => ?_⟩
  · -- the call succeeds and every frequency row is the scattered map
    simp only [BeamEmulator.call, hmode, Bool.false_eq_true, if_false, hkl]
    refine exceptMap_ok _ _ _ (fun f hf => ?_)
    have hflt : f < (interp p).length := lt_of_lt_of_le (List.mem_range.mp hf) hF
    have hrow : (interp p).get? f = some ((interp p).getD f []) := by
      rw [List.getD_eq_getElem _ _ hflt, List.get?_eq_getElem?, List.getElem?_eq_getElem hflt]
    have hmem : (interp p).getD f [] ∈ interp p := by
      rw [List.getD_eq_getElem _ _ hflt]
      exact List.getElem_mem hflt
    have hmv : matVec kl ((interp p).getD f [])
        = .ok (kl.map (fun r => dot r ((interp p).getD f []))) := by
      rw [matVec, if_pos]
      rw [List.all_eq_true]
      intro r hr
      rw [decide_eq_true_eq]
      exact hdim r hr _ hmem
    have hassign : npIndexAssign (List.replicate (npix s.nside) 0) s.unmasked_indices
        (kl.map (fun r => dot r ((interp p).getD f [])))
        = .ok (npAssignPairsPure (List.replicate (npix s.nside) 0)
            (s.unmasked_indices.zip (kl.map (fun r => dot r ((interp p).getD f []))))) := by
      rw [npIndexAssign, if_pos (hzlen f)]
      exact npAssignPairs_eq_pure _ _ (hzbd f)
    simp only [fullSkyRow, hrow, hmv, hassign]
  · -- shape, mask values, zeros elsewhere, for one frequency row
    have hout : ((List.range s.frequencies.length).map (fun f =>
        npAssignPairsPure (List.replicate (npix s.nside) 0)
          (s.unmasked_indices.zip
            (kl.map (fun r => dot r ((interp p).getD f [])))))).getD f []
        = npAssignPairsPure (List.replicate (npix s.nside) 0)
          (s.unmasked_indices.zip (kl.map (fun r => dot r ((interp p).getD f [])))) := by
      rw [List.getD_eq_getElem _ _ (by simpa using hf), List.getElem_map, List.getElem_range]
    rw [hout]
    have hndz : ((s.unmasked_indices.zip
        (kl.map (fun r => dot r ((interp p).getD f [])))).map Prod.fst).Nodup := by
      rw [List.map_fst_zip _ _ (le_of_eq (hzlen f))]
      exact hnd
    refine ⟨by rw [npAssignPairsPure_length, List.length_replicate], fun j hj => ?_,
      fun q hq hqnot => ?_⟩
    · have hjz : j < (s.unmasked_indices.zip
          (kl.map (fun r => dot r ((interp p).getD f [])))).length := by
        rw [List.length_zip, ← hzlen f, Nat.min_self]
        exact hj
      have hval := npAssignPairsPure_getD _ _ j hjz (hzbd f) hndz
      have hpair : (s.unmasked_indices.zip
          (kl.map (fun r => dot r ((interp p).getD f [])))).get ⟨j, hjz⟩
          = (s.unmasked_indices.getD j 0,
            (projectedValues kl (interp p) f).getD j 0) := by
        have hjm : j < (kl.map (fun r => dot r ((interp p).getD f []))).length := by
          rw [← hzlen f]
          exact hj
        rw [List.get_eq_getElem, List.getElem_zip, List.getD_eq_getElem _ _ hj]
        simp only [projectedValues]
        rw [List.getD_eq_getElem _ _ hjm]
      rw [hpair] at hval
      exact hval
    · rw [npAssignPairsPure_notmem _ _ _
        (fun iv hiv => (hzbd f iv hiv).1)
        (fun iv hiv => hqnot iv.1 (List.of_mem_zip hiv).1)]
      exact getD_replicate_zero _ _

/-- C1 (witness): the repaired full-sky behaviour at a concrete instance —
basis `1 × 2`, one frequency, mask `[0, 3]` on an `nside = 1` sky. -/
theorem fullsky_masking_witness :
    ∃ out, BeamEmulator.call { (BeamEmulator.init [50] 1 [[1, 2]] [] [] [0, 3] 3 false
        none ⟨"RBF", true, "MultiOutput"⟩ false false) with cryo_basis := some [[1, 2]] }
      (fun _ => [[5]]) [7] = .ok out ∧
      out.length = 1 ∧
      ∀ f, f < 1 →
        (out.getD f []).length = npix 1 ∧
        (∀ j, j < ([(0 : ℤ), 3]).length →
          (out.getD f []).getD (([(0 : ℤ), 3]).getD j 0).toNat 0
            = (projectedValues (matTranspose [[1, 2]]) [[5]] f).getD j 0) ∧
        (∀ q, q < npix 1 → (∀ i ∈ [(0 : ℤ), 3], i.toNat ≠ q) →
          (out.getD f []).getD q 0 = 0) :=
  fullsky_masked_scatter.2
    { (BeamEmulator.init [50] 1 [[1, 2]] [] [] [0, 3] 3 false none
        ⟨"RBF", true, "MultiOutput"⟩ false false) with cryo_basis := some [[1, 2]] }
    (fun _ => [[5]]) 7 [] (matTranspose [[1, 2]]) rfl rfl (by decide) (by decide)
    (by decide) (by decide) (by decide)

end Medea
